import Mathlib

set_option autoImplicit false

/-!
A shallow embedding of the TimeSplit API server (`server.js`) together with the
persistent relations of `migrations/01_schema.sql`.

Modelling conventions:
* JSON integers (`z.number().int()`) are `Int`, so the schema's nonnegativity
  checks are meaningful; JSON numerics (`z.number()`, SQL `numeric`) are `Rat`.
* The database is a pair of row lists (`sessions`, `splits`).  SQL statements
  are functions on that state; `now()` is an explicit `Nat` clock parameter.
* The transaction of the POST handler (`BEGIN` … `COMMIT`/`ROLLBACK`) is
  modelled by running the statements on a tentative state and committing it
  only when every statement succeeds; a failure oracle `failAt` names the
  index of the storage statement that is forced to fail (0 is the header
  upsert, `i + 1` is the insert of the `i`-th split), `none` meaning no
  failure.
-/

namespace TimeSplit

/-- A split entry as submitted in the request body (`SplitSchema`):
`t`, `lap`, `score` and an optional `note`. -/
structure SplitPayload where
  t : Int
  lap : Int
  score : Rat
  note : Option String
deriving Repr, DecidableEq

/-- A session upsert request body (`SessionUpsertSchema`).  `splits?` is
`none` when the `splits` field is omitted from the JSON body; the schema
declares the field `.optional().default([])`. -/
structure SessionPayload where
  id : String
  player : String
  mode : String
  startedAt : Int
  durationMs : Int
  totalScore : Rat
  splits? : Option (List SplitPayload)
deriving Repr, DecidableEq

/-- The two values accepted by `z.enum(["carreras","futbol"])` (and by the
`CHECK (mode IN ('carreras','futbol'))` constraint of the schema). -/
def modeValues : List String := ["carreras", "futbol"]

/-- Validation of one split entry: `t` and `lap` must be nonnegative. -/
def splitSchemaValid (sp : SplitPayload) : Bool :=
  decide (0 ≤ sp.t) && decide (0 ≤ sp.lap)

/-- Structural validation of an upsert body, after `SessionUpsertSchema`:
`id` at least 3 characters, `player` nonempty, `mode` in the enumeration,
`startedAt` and `durationMs` nonnegative, and every submitted split valid
with at most 200000 entries.  An omitted `splits` field is accepted. -/
def sessionUpsertSchemaValid (p : SessionPayload) : Bool :=
  decide (3 ≤ p.id.length) && decide (1 ≤ p.player.length) &&
  modeValues.contains p.mode &&
  decide (0 ≤ p.startedAt) && decide (0 ≤ p.durationMs) &&
  (match p.splits? with
   | none => true
   | some l => decide (l.length ≤ 200000) && l.all splitSchemaValid)

/-- The normalized split list: the `.default([])` applied by the schema. -/
def splitsOf (p : SessionPayload) : List SplitPayload :=
  p.splits?.getD []

/-- `s.splits.reduce((m, sp) => Math.max(m, sp.t), 0)` from the handler. -/
def maxT (l : List SplitPayload) : Int :=
  l.foldl (fun m sp => max m sp.t) 0

/-- A row of the `sessions` relation. -/
structure SessionRow where
  id : String
  player : String
  mode : String
  startedAt : Int
  durationMs : Int
  totalScore : Rat
  createdAt : Nat
  updatedAt : Nat
deriving Repr, DecidableEq

/-- A row of the `splits` relation. -/
structure SplitRow where
  sessionId : String
  t : Int
  lap : Int
  score : Rat
  note : Option String
deriving Repr, DecidableEq

/-- The whole persistent state: both relations. -/
structure DB where
  sessions : List SessionRow
  splits : List SplitRow
deriving Repr, DecidableEq

def DB.empty : DB := ⟨[], []⟩

/-- Does a `sessions` row with this primary key exist? -/
def sessionExists (db : DB) (id : String) : Bool :=
  db.sessions.any (fun r => r.id == id)

/-- The `DO UPDATE SET` arm of `upsertQ`: overwrite `player`, `mode`,
`started_at`, `duration_ms`, `total_score` and `updated_at = now()`,
leaving `id` and `created_at` as they were. -/
def overwriteRow (r : SessionRow) (p : SessionPayload) (now : Nat) : SessionRow :=
  { r with player := p.player, mode := p.mode, startedAt := p.startedAt,
           durationMs := p.durationMs, totalScore := p.totalScore,
           updatedAt := now }

/-- The plain `INSERT` arm of `upsertQ`: a fresh row with
`created_at = updated_at = now()` (both columns default to `now()`). -/
def freshRow (p : SessionPayload) (now : Nat) : SessionRow :=
  ⟨p.id, p.player, p.mode, p.startedAt, p.durationMs, p.totalScore, now, now⟩

/-- `INSERT INTO sessions … ON CONFLICT (id) DO UPDATE SET …` (`upsertQ`). -/
def upsertSession (db : DB) (p : SessionPayload) (now : Nat) : DB :=
  if sessionExists db p.id then
    { db with sessions :=
        db.sessions.map (fun r => if r.id == p.id then overwriteRow r p now else r) }
  else
    { db with sessions := db.sessions ++ [freshRow p now] }

/-- Does a `splits` row with this primary key `(session_id, t_ms)` exist? -/
def splitExists (db : DB) (sid : String) (t : Int) : Bool :=
  db.splits.any (fun r => r.sessionId == sid && r.t == t)

def splitRowOf (sid : String) (sp : SplitPayload) : SplitRow :=
  ⟨sid, sp.t, sp.lap, sp.score, sp.note⟩

/-- `INSERT INTO splits … ON CONFLICT (session_id, t_ms) DO NOTHING`
(`insertSplit`): append the row unless the key is already present. -/
def insertSplit (db : DB) (sid : String) (sp : SplitPayload) : DB :=
  if splitExists db sid sp.t then db
  else { db with splits := db.splits ++ [splitRowOf sid sp] }

/-- The split-insert loop of the POST handler.  `idx` is the index of the
next storage statement; the loop body increments `inserted` on every
iteration, whether or not the insert was skipped by `DO NOTHING` — this is
exactly the `inserted++` of the source.  A forced failure (`failAt = some
idx`) aborts the transaction, returning `none`. -/
def runSplits (sid : String) (l : List SplitPayload) (db : DB)
    (inserted : Nat) (idx : Nat) (failAt : Option Nat) : Option (DB × Nat) :=
  match l with
  | [] => some (db, inserted)
  | sp :: rest =>
      if failAt == some idx then none
      else runSplits sid rest (insertSplit db sid sp) (inserted + 1) (idx + 1) failAt

/-- The three response shapes of the POST handler. -/
inductive UpsertResponse where
  | validationError
  | persistenceError
  | ok (upserted : String) (splitsInserted : Nat)
deriving Repr, DecidableEq

def httpStatus : UpsertResponse → Nat
  | .validationError => 400
  | .persistenceError => 500
  | .ok _ _ => 200

def okField : UpsertResponse → Bool
  | .ok _ _ => true
  | _ => false

/-- The `POST /api/sessions` handler: schema validation, the
`durationMs ≥ max split.t` coherence check, then one transaction doing the
header upsert followed by one insert per split.  On any statement failure
the transaction is rolled back: the committed state is the original `db`
and the caller gets the 500 response. -/
def postSessions (db : DB) (p : SessionPayload) (now : Nat)
    (failAt : Option Nat) : DB × UpsertResponse :=
  if sessionUpsertSchemaValid p = false then (db, .validationError)
  else if p.durationMs < maxT (splitsOf p) then (db, .validationError)
  else if failAt == some 0 then (db, .persistenceError)
  else
    match runSplits p.id (splitsOf p) (upsertSession db p now) 0 1 failAt with
    | none => (db, .persistenceError)
    | some (db2, inserted) => (db2, .ok p.id inserted)

/-- The effect of the split-insert loop on the state when no statement
fails: fold `insertSplit` over the submitted splits. -/
def applySplits (sid : String) (l : List SplitPayload) (db : DB) : DB :=
  match l with
  | [] => db
  | sp :: rest => applySplits sid rest (insertSplit db sid sp)

theorem insertSplit_sessions (db : DB) (sid : String) (sp : SplitPayload) :
    (insertSplit db sid sp).sessions = db.sessions := by
  unfold insertSplit
  split <;> rfl

theorem applySplits_sessions (sid : String) (l : List SplitPayload) (db : DB) :
    (applySplits sid l db).sessions = db.sessions := by
  induction l generalizing db with
  | nil => rfl
  | cons sp rest ih =>
      simpa [applySplits, insertSplit_sessions] using ih (insertSplit db sid sp)

theorem runSplits_none (sid : String) (l : List SplitPayload) (db : DB)
    (inserted idx : Nat) :
    runSplits sid l db inserted idx none = some (applySplits sid l db, inserted + l.length) := by
  induction l generalizing db inserted idx with
  | nil => simp [runSplits, applySplits]
  | cons sp rest ih =>
      simp only [runSplits, applySplits]
      rw [if_neg (by simp)]
      rw [ih]
      simp [Nat.add_comm, Nat.add_assoc, Nat.add_left_comm]

theorem runSplits_fail (sid : String) (l : List SplitPayload) (db : DB)
    (inserted idx k : Nat) (hlo : idx ≤ k) (hhi : k < idx + l.length) :
    runSplits sid l db inserted idx (some k) = none := by
  induction l generalizing db inserted idx with
  | nil => simp at hhi; omega
  | cons sp rest ih =>
      by_cases hk : k = idx
      · simp [runSplits, hk]
      · simp only [runSplits]
        rw [if_neg (by simp; omega)]
        exact ih (insertSplit db sid sp) (inserted + 1) (idx + 1)
          (by omega) (by simp at hhi ⊢; omega)

theorem insertSplit_mem (db : DB) (sid : String) (sp : SplitPayload)
    (r : SplitRow) (h : r ∈ db.splits) : r ∈ (insertSplit db sid sp).splits := by
  unfold insertSplit
  split
  · exact h
  · simpa using Or.inl h

theorem applySplits_mem (sid : String) (l : List SplitPayload) (db : DB)
    (r : SplitRow) (h : r ∈ db.splits) : r ∈ (applySplits sid l db).splits := by
  induction l generalizing db with
  | nil => exact h
  | cons sp rest ih => exact ih (insertSplit db sid sp) (insertSplit_mem db sid sp r h)

theorem splitExists_insertSplit_mono (db : DB) (sid s : String)
    (sp : SplitPayload) (t : Int) (h : splitExists db s t = true) :
    splitExists (insertSplit db sid sp) s t = true := by
  unfold insertSplit
  split
  · exact h
  · unfold splitExists at h ⊢
    simp only [List.any_append, Bool.or_eq_true]
    exact Or.inl h

theorem splitExists_applySplits_mono (sid s : String) (l : List SplitPayload)
    (db : DB) (t : Int) (h : splitExists db s t = true) :
    splitExists (applySplits sid l db) s t = true := by
  induction l generalizing db with
  | nil => exact h
  | cons sp rest ih =>
      exact ih (insertSplit db sid sp) (splitExists_insertSplit_mono db sid s sp t h)

theorem splitExists_insertSplit_self (db : DB) (sid : String) (sp : SplitPayload) :
    splitExists (insertSplit db sid sp) sid sp.t = true := by
  unfold insertSplit
  split
  · assumption
  · unfold splitExists
    simp [splitRowOf]

theorem applySplits_all_exist (sid : String) (l : List SplitPayload) (db : DB)
    (sp : SplitPayload) (h : sp ∈ l) :
    splitExists (applySplits sid l db) sid sp.t = true := by
  induction l generalizing db with
  | nil => cases h
  | cons hd rest ih =>
      rcases List.mem_cons.1 h with h1 | h2
      · subst h1
        exact splitExists_applySplits_mono sid sid rest (insertSplit db sid sp) sp.t
          (splitExists_insertSplit_self db sid sp)
      · exact ih (insertSplit db sid hd) h2

theorem applySplits_skip (sid : String) (l : List SplitPayload) (db : DB)
    (h : ∀ sp ∈ l, splitExists db sid sp.t = true) :
    applySplits sid l db = db := by
  induction l generalizing db with
  | nil => rfl
  | cons sp rest ih =>
      have hsp : insertSplit db sid sp = db := by
        unfold insertSplit
        rw [if_pos (h sp (List.mem_cons_self sp rest))]
      rw [applySplits, hsp]
      exact ih db (fun q hq => h q (List.mem_cons_of_mem sp hq))

theorem insertSplit_mem_inv (db : DB) (sid : String) (sp : SplitPayload)
    (r : SplitRow) (h : r ∈ (insertSplit db sid sp).splits) :
    r ∈ db.splits ∨ splitExists db r.sessionId r.t = false := by
  unfold insertSplit at h
  split at h
  · exact Or.inl h
  · simp only [List.mem_append, List.mem_singleton] at h
    rcases h with h1 | h2
    · exact Or.inl h1
    · subst h2
      rename_i hne
      right
      simpa [splitRowOf, Bool.not_eq_true] using hne

theorem applySplits_mem_inv (sid : String) (l : List SplitPayload) (db : DB)
    (r : SplitRow) (h : r ∈ (applySplits sid l db).splits) :
    r ∈ db.splits ∨ splitExists db r.sessionId r.t = false := by
  induction l generalizing db with
  | nil => exact Or.inl h
  | cons sp rest ih =>
      rcases ih (insertSplit db sid sp) h with h1 | h2
      · exact insertSplit_mem_inv db sid sp r h1
      · right
        by_contra hc
        have : splitExists db r.sessionId r.t = true := by
          cases hx : splitExists db r.sessionId r.t
          · exact absurd hx hc
          · rfl
        rw [splitExists_insertSplit_mono db sid r.sessionId sp r.t this] at h2
        cases h2

theorem upsertSession_splits (db : DB) (p : SessionPayload) (now : Nat) :
    (upsertSession db p now).splits = db.splits := by
  unfold upsertSession
  split <;> rfl

theorem splitExists_of_mem (db : DB) (r : SplitRow) (h : r ∈ db.splits) :
    splitExists db r.sessionId r.t = true := by
  unfold splitExists
  rw [List.any_eq_true]
  exact ⟨r, h, by simp⟩

/-- Shape of a fully successful POST: the committed state is the header
upsert followed by the conditional split inserts, and the reported
`splits_inserted` is the number of splits submitted. -/
theorem postSessions_success (db : DB) (p : SessionPayload) (now : Nat)
    (hval : sessionUpsertSchemaValid p = true)
    (hdur : ¬ p.durationMs < maxT (splitsOf p)) :
    postSessions db p now none =
      (applySplits p.id (splitsOf p) (upsertSession db p now),
       .ok p.id (splitsOf p).length) := by
  unfold postSessions
  rw [if_neg (by simp [hval]), if_neg hdur, if_neg (by simp), runSplits_none]
  simp

/-- A demo payload: one split at offset 100 inside a 1000 ms session. -/
def demoSplit : SplitPayload := ⟨100, 1, 5, none⟩

def demoPayload : SessionPayload :=
  ⟨"abc", "Mati", "carreras", 0, 1000, 10, some [demoSplit]⟩

/-- C2: if any storage statement of the transaction fails (statement 0 is the
header upsert, statement `i + 1` the insert of the `i`-th split), the whole
unit of work is rolled back — the committed state is exactly the original
one — and the caller receives the 500 `ok:false` persistence error, never a
partial success. -/
theorem postSessions_rollback_on_failure (db : DB) (p : SessionPayload)
    (now k : Nat)
    (hval : sessionUpsertSchemaValid p = true)
    (hdur : ¬ p.durationMs < maxT (splitsOf p))
    (hk : k ≤ (splitsOf p).length) :
    postSessions db p now (some k) = (db, .persistenceError) ∧
    httpStatus (postSessions db p now (some k)).2 = 500 ∧
    okField (postSessions db p now (some k)).2 = false := by
  have hmain : postSessions db p now (some k) = (db, .persistenceError) := by
    unfold postSessions
    rw [if_neg (by simp [hval]), if_neg hdur]
    by_cases hk0 : k = 0
    · subst hk0
      rw [if_pos (by simp)]
    · rw [if_neg (by simp [hk0])]
      rw [runSplits_fail p.id (splitsOf p) (upsertSession db p now) 0 1 k
        (by omega) (by omega)]
  refine ⟨hmain, ?_, ?_⟩ <;> rw [hmain] <;> rfl

theorem postSessions_rollback_on_failure_witness :
    postSessions DB.empty demoPayload 7 (some 1) = (DB.empty, .persistenceError) ∧
    httpStatus (postSessions DB.empty demoPayload 7 (some 1)).2 = 500 ∧
    okField (postSessions DB.empty demoPayload 7 (some 1)).2 = false :=
  postSessions_rollback_on_failure DB.empty demoPayload 7 1
    (by decide) (by decide) (by decide)

/-- C1: the claim fails on the code.  The loop body of the POST handler
increments `inserted` on every submitted split, even when `ON CONFLICT …
DO NOTHING` skipped the insert, so resubmitting `demoPayload` (whose single
split offset already exists after the first call) answers
`splits_inserted = 1` although the stored split set is unchanged — the
claim (and the spec) require 0 there. -/
theorem postSessions_counts_skipped_splits :
    (postSessions (postSessions DB.empty demoPayload 1 none).1 demoPayload 2 none).2
      = UpsertResponse.ok "abc" 1 ∧
    (postSessions (postSessions DB.empty demoPayload 1 none).1 demoPayload 2 none).1.splits
      = (postSessions DB.empty demoPayload 1 none).1.splits ∧
    (1 : Nat) ≠ 0 := by
  refine ⟨by decide, by decide, by decide⟩

/-- Primary-key uniqueness of the `splits` relation: no two rows share
`(session_id, t_ms)`. -/
def splitKeysUnique (db : DB) : Prop :=
  db.splits.Pairwise (fun a b => ¬ (a.sessionId = b.sessionId ∧ a.t = b.t))

instance (db : DB) : Decidable (splitKeysUnique db) :=
  inferInstanceAs (Decidable (db.splits.Pairwise
    (fun a b : SplitRow => ¬ (a.sessionId = b.sessionId ∧ a.t = b.t))))

/-- C3: a successful upsert never overwrites a stored split.  Any stored
row `r` survives the merge verbatim, and every row of the merged state that
carries `r`'s key is `r` itself; moreover replaying the very same payload
leaves the stored split set verbatim unchanged (idempotent merge). -/
theorem postSessions_never_overwrites_splits (db db1 : DB) (p : SessionPayload)
    (now now2 : Nat) (r : SplitRow)
    (hval : sessionUpsertSchemaValid p = true)
    (hdur : ¬ p.durationMs < maxT (splitsOf p))
    (huniq : splitKeysUnique db)
    (hr : r ∈ db.splits)
    (hdb1 : db1 = (postSessions db p now none).1) :
    (r ∈ db1.splits ∧
      ∀ r' ∈ db1.splits, r'.sessionId = r.sessionId → r'.t = r.t → r' = r) ∧
    (postSessions db1 p now2 none).1.splits = db1.splits := by
  have hpost := postSessions_success db p now hval hdur
  have hdb1' : db1 = applySplits p.id (splitsOf p) (upsertSession db p now) := by
    rw [hdb1, hpost]
  constructor
  · constructor
    · rw [hdb1']
      exact applySplits_mem p.id (splitsOf p) (upsertSession db p now) r
        (by rw [upsertSession_splits]; exact hr)
    · intro r' hr' hsid ht
      rw [hdb1'] at hr'
      rcases applySplits_mem_inv p.id (splitsOf p) (upsertSession db p now) r' hr'
        with h1 | h2
      · rw [upsertSession_splits] at h1
        by_cases heq : r' = r
        · exact heq
        · have hsym : Symmetric (fun a b : SplitRow =>
              ¬ (a.sessionId = b.sessionId ∧ a.t = b.t)) :=
            fun a b hab hc => hab ⟨hc.1.symm, hc.2.symm⟩
          have huniq' : db.splits.Pairwise
              (fun a b : SplitRow => ¬ (a.sessionId = b.sessionId ∧ a.t = b.t)) :=
            huniq
          have hne := List.Pairwise.forall hsym huniq' h1 hr heq
          exact absurd ⟨hsid, ht⟩ hne
      · exfalso
        have hex : splitExists (upsertSession db p now) r'.sessionId r'.t = true := by
          have : splitExists db r'.sessionId r'.t = true := by
            rw [hsid, ht]
            exact splitExists_of_mem db r hr
          unfold splitExists at this ⊢
          rwa [upsertSession_splits]
        rw [hex] at h2
        cases h2
  · have hall : ∀ sp ∈ splitsOf p,
        splitExists (upsertSession db1 p now2) p.id sp.t = true := by
      intro sp hsp
      have : splitExists db1 p.id sp.t = true := by
        rw [hdb1']
        exact applySplits_all_exist p.id (splitsOf p) (upsertSession db p now) sp hsp
      unfold splitExists at this ⊢
      rwa [upsertSession_splits]
    rw [postSessions_success db1 p now2 hval hdur,
        applySplits_skip p.id (splitsOf p) (upsertSession db1 p now2) hall,
        upsertSession_splits]

/-- A database holding the demo session and a split at offset 100 whose
`lap`, `score` and `note` all differ from the ones `demoPayload` submits
for that same offset. -/
def demoStoredDB : DB :=
  ⟨[⟨"abc", "Mati", "carreras", 0, 1000, 10, 0, 0⟩],
   [⟨"abc", 100, 9, 77, some "orig"⟩]⟩

theorem postSessions_never_overwrites_splits_witness :
    ((⟨"abc", 100, 9, 77, some "orig"⟩ : SplitRow) ∈
        ((postSessions demoStoredDB demoPayload 1 none).1).splits ∧
      ∀ r' ∈ ((postSessions demoStoredDB demoPayload 1 none).1).splits,
        r'.sessionId = "abc" → r'.t = 100 → r' = ⟨"abc", 100, 9, 77, some "orig"⟩) ∧
    (postSessions (postSessions demoStoredDB demoPayload 1 none).1 demoPayload 2 none).1.splits
      = ((postSessions demoStoredDB demoPayload 1 none).1).splits :=
  postSessions_never_overwrites_splits demoStoredDB
    (postSessions demoStoredDB demoPayload 1 none).1 demoPayload 1 2
    ⟨"abc", 100, 9, 77, some "orig"⟩
    (by decide) (by decide) (by decide) (by decide) rfl

/-- Primary-key uniqueness of the `sessions` relation. -/
def sessionIdsUnique (db : DB) : Prop :=
  db.sessions.Pairwise (fun a b => a.id ≠ b.id)

instance (db : DB) : Decidable (sessionIdsUnique db) :=
  inferInstanceAs (Decidable (db.sessions.Pairwise
    (fun a b : SessionRow => a.id ≠ b.id)))

/-- C4: a successful upsert over an existing header `h` stores exactly the
row whose `player`, `mode`, `startedAt`, `durationMs`, `totalScore` come
from the new payload, whose `updatedAt` is the current clock, and whose
`createdAt` is `h`'s original one; every stored row with that id is that
row, rows with other ids are untouched, and no row is added. -/
theorem postSessions_header_overwrite (db : DB) (p : SessionPayload)
    (now : Nat) (h : SessionRow)
    (hval : sessionUpsertSchemaValid p = true)
    (hdur : ¬ p.durationMs < maxT (splitsOf p))
    (huniq : sessionIdsUnique db)
    (hmem : h ∈ db.sessions) (hid : h.id = p.id) :
    (⟨p.id, p.player, p.mode, p.startedAt, p.durationMs, p.totalScore,
        h.createdAt, now⟩ : SessionRow) ∈ (postSessions db p now none).1.sessions ∧
    (∀ r' ∈ (postSessions db p now none).1.sessions, r'.id = p.id →
        r' = (⟨p.id, p.player, p.mode, p.startedAt, p.durationMs, p.totalScore,
              h.createdAt, now⟩ : SessionRow)) ∧
    (∀ r ∈ db.sessions, r.id ≠ p.id → r ∈ (postSessions db p now none).1.sessions) ∧
    (postSessions db p now none).1.sessions.length = db.sessions.length := by
  have hsx : sessionExists db p.id = true := by
    unfold sessionExists
    rw [List.any_eq_true]
    exact ⟨h, hmem, by simp [hid]⟩
  have hsess : (postSessions db p now none).1.sessions =
      db.sessions.map (fun r => if r.id == p.id then overwriteRow r p now else r) := by
    rw [postSessions_success db p now hval hdur]
    show (applySplits p.id (splitsOf p) (upsertSession db p now)).sessions = _
    rw [applySplits_sessions]
    unfold upsertSession
    rw [if_pos hsx]
  have hrec : overwriteRow h p now =
      ⟨p.id, p.player, p.mode, p.startedAt, p.durationMs, p.totalScore,
        h.createdAt, now⟩ := by
    unfold overwriteRow
    rw [← hid]
  refine ⟨?_, ?_, ?_, ?_⟩
  · rw [hsess]
    refine List.mem_map.2 ⟨h, hmem, ?_⟩
    rw [if_pos (by simp [hid]), hrec]
  · intro r' hr' hid'
    rw [hsess] at hr'
    obtain ⟨r0, hr0, hfr0⟩ := List.mem_map.1 hr'
    by_cases hc : (r0.id == p.id) = true
    · rw [if_pos hc] at hfr0
      have hr0id : r0.id = p.id := by simpa using hc
      have hr0h : r0 = h := by
        by_contra hne
        have hsym : Symmetric (fun a b : SessionRow => a.id ≠ b.id) :=
          fun a b hab hc2 => hab hc2.symm
        have huniq' : db.sessions.Pairwise (fun a b : SessionRow => a.id ≠ b.id) :=
          huniq
        exact List.Pairwise.forall hsym huniq' hr0 hmem hne (by rw [hr0id, hid])
      rw [← hfr0, hr0h, hrec]
    · rw [if_neg hc] at hfr0
      rw [← hfr0] at hid'
      exact absurd hid' (by simpa using hc)
  · intro r hr hne
    rw [hsess]
    refine List.mem_map.2 ⟨r, hr, ?_⟩
    rw [if_neg (by simpa using hne)]
  · rw [hsess, List.length_map]

/-- A second submission for the same id with different player, mode,
timing and score. -/
def demoPayload2 : SessionPayload :=
  ⟨"abc", "Luis", "futbol", 5, 2000, 99, some []⟩

theorem postSessions_header_overwrite_witness :
    (⟨"abc", "Luis", "futbol", 5, 2000, 99, 0, 9⟩ : SessionRow) ∈
        (postSessions demoStoredDB demoPayload2 9 none).1.sessions ∧
    (∀ r' ∈ (postSessions demoStoredDB demoPayload2 9 none).1.sessions,
        r'.id = "abc" →
        r' = (⟨"abc", "Luis", "futbol", 5, 2000, 99, 0, 9⟩ : SessionRow)) ∧
    (∀ r ∈ demoStoredDB.sessions, r.id ≠ "abc" →
        r ∈ (postSessions demoStoredDB demoPayload2 9 none).1.sessions) ∧
    (postSessions demoStoredDB demoPayload2 9 none).1.sessions.length
      = demoStoredDB.sessions.length :=
  postSessions_header_overwrite demoStoredDB demoPayload2 9
    ⟨"abc", "Mati", "carreras", 0, 1000, 10, 0, 0⟩
    (by decide) (by decide) (by decide) (by decide) (by decide)

/-- C5: for a structurally valid payload the POST answers the 400
validation error exactly when `durationMs` is below the maximum submitted
split offset (`maxT`, which is 0 when no splits are submitted); the
outcome of the check is the same for every stored state — it reads only
the request's splits — and on a validation failure the state is returned
unchanged. -/
theorem postSessions_duration_check (db : DB) (p : SessionPayload) (now : Nat)
    (failAt : Option Nat)
    (hval : sessionUpsertSchemaValid p = true) :
    ((postSessions db p now failAt).2 = .validationError ↔
      p.durationMs < maxT (splitsOf p)) ∧
    httpStatus UpsertResponse.validationError = 400 ∧
    (p.durationMs < maxT (splitsOf p) →
      postSessions db p now failAt = (db, .validationError)) := by
  unfold postSessions
  rw [if_neg (by simp [hval])]
  by_cases hd : p.durationMs < maxT (splitsOf p)
  · rw [if_pos hd]
    simp [hd, httpStatus]
  · rw [if_neg hd]
    refine ⟨?_, rfl, fun hc => absurd hc hd⟩
    by_cases hf : (failAt == some 0) = true
    · rw [if_pos hf]
      simp [hd]
    · rw [if_neg hf]
      cases hrun : runSplits p.id (splitsOf p) (upsertSession db p now) 0 1 failAt with
      | none => simp [hd]
      | some v =>
          obtain ⟨db2, ins⟩ := v
          simp [hd]

/-- A schema-valid payload whose duration (100) is below its maximum split
offset (500). -/
def demoShortDuration : SessionPayload :=
  ⟨"abc", "Mati", "carreras", 0, 100, 10, some [⟨500, 1, 5, none⟩]⟩

theorem postSessions_duration_check_witness :
    ((postSessions DB.empty demoShortDuration 3 none).2 = .validationError ↔
      demoShortDuration.durationMs < maxT (splitsOf demoShortDuration)) ∧
    httpStatus UpsertResponse.validationError = 400 ∧
    (demoShortDuration.durationMs < maxT (splitsOf demoShortDuration) →
      postSessions DB.empty demoShortDuration 3 none = (DB.empty, .validationError)) :=
  postSessions_duration_check DB.empty demoShortDuration 3 none (by decide)

/-- C10: a payload that omits the `splits` field entirely is normalized to
the empty split list: the duration check compares `durationMs` with
`maxT [] = 0` and passes for every schema-valid payload, no split row is
written, and the response reports `splits_inserted = 0`. -/
theorem postSessions_omitted_splits (db : DB) (p : SessionPayload) (now : Nat)
    (hnone : p.splits? = none)
    (hval : sessionUpsertSchemaValid p = true) :
    maxT (splitsOf p) = 0 ∧
    ¬ p.durationMs < maxT (splitsOf p) ∧
    (postSessions db p now none).2 = .ok p.id 0 ∧
    (postSessions db p now none).1.splits = db.splits := by
  have hsplits : splitsOf p = [] := by rw [splitsOf, hnone]; rfl
  have hmax : maxT (splitsOf p) = 0 := by rw [hsplits]; rfl
  have hd0 : (0 : Int) ≤ p.durationMs := by
    unfold sessionUpsertSchemaValid at hval
    simp only [Bool.and_eq_true, decide_eq_true_eq] at hval
    exact hval.1.2
  have hdur : ¬ p.durationMs < maxT (splitsOf p) := by
    rw [hmax]
    omega
  refine ⟨hmax, hdur, ?_, ?_⟩
  · rw [postSessions_success db p now hval hdur, hsplits]
    rfl
  · rw [postSessions_success db p now hval hdur, hsplits]
    simp only []
    show (applySplits p.id [] (upsertSession db p now)).splits = db.splits
    rw [show applySplits p.id [] (upsertSession db p now) = upsertSession db p now
      from rfl]
    exact upsertSession_splits db p now

/-- A payload whose JSON body has no `splits` field at all. -/
def demoNoSplits : SessionPayload := ⟨"xyz", "Mati", "futbol", 0, 0, 3, none⟩

theorem postSessions_omitted_splits_witness :
    maxT (splitsOf demoNoSplits) = 0 ∧
    ¬ demoNoSplits.durationMs < maxT (splitsOf demoNoSplits) ∧
    (postSessions DB.empty demoNoSplits 4 none).2 = .ok "xyz" 0 ∧
    (postSessions DB.empty demoNoSplits 4 none).1.splits = DB.empty.splits :=
  postSessions_omitted_splits DB.empty demoNoSplits 4 rfl (by decide)

/-- The mode enumeration values named by the specification document
(`racing`, `soccer`), written out to compare against the enumeration the
code actually checks (`modeValues`). -/
def specModeValues : List String := ["racing", "soccer"]

/-- C6 counterexample: a payload with mode `"carreras"` passes schema
validation although `"carreras"` is not one of the enumeration values
`racing`/`soccer` the claim names, and the same payload with mode
`"racing"` is rejected although the claim says it is accepted. -/
theorem modeValues_not_racing_soccer :
    sessionUpsertSchemaValid demoPayload = true ∧
    specModeValues.contains demoPayload.mode = false ∧
    sessionUpsertSchemaValid { demoPayload with mode := "racing" } = false ∧
    specModeValues.contains "racing" = true := by
  refine ⟨by decide, by decide, by decide, by decide⟩

/-- C6 (amended): with every other schema check satisfied, validation
accepts the payload iff its mode is one of the two enumeration values
`carreras` and `futbol`; any other mode string fails validation. -/
theorem sessionUpsertSchemaValid_mode_iff (p : SessionPayload)
    (hother : (decide (3 ≤ p.id.length) && decide (1 ≤ p.player.length) &&
      decide (0 ≤ p.startedAt) && decide (0 ≤ p.durationMs) &&
      (match p.splits? with
       | none => true
       | some l => decide (l.length ≤ 200000) && l.all splitSchemaValid)) = true) :
    sessionUpsertSchemaValid p = true ↔
      (p.mode = "carreras" ∨ p.mode = "futbol") := by
  unfold sessionUpsertSchemaValid
  simp only [Bool.and_eq_true] at hother ⊢
  obtain ⟨⟨⟨⟨ha, hb⟩, hc⟩, hd⟩, he⟩ := hother
  constructor
  · intro hv
    have hm := hv.1.1.1.2
    simpa [modeValues, List.contains] using hm
  · intro hm
    refine ⟨⟨⟨⟨⟨ha, hb⟩, ?_⟩, hc⟩, hd⟩, he⟩
    rcases hm with h | h <;> simp [modeValues, List.contains, h]

theorem sessionUpsertSchemaValid_mode_iff_witness :
    sessionUpsertSchemaValid demoPayload = true ↔
      (demoPayload.mode = "carreras" ∨ demoPayload.mode = "futbol") :=
  sessionUpsertSchemaValid_mode_iff demoPayload (by decide)

/-- The routes of the app.  `health` and `version` are registered before
`app.use("/api", requireApiKey)`, so they answer before the key middleware
runs; every other data-plane route sits behind it. -/
inductive Endpoint where
  | health
  | version
  | sessionsUpsert
  | sessionsList
  | sessionDetail
  | leaderboard
  | players
  | modes
  | stats
deriving Repr, DecidableEq

/-- The two routes registered ahead of the middleware. -/
def isExemptRoute : Endpoint → Bool
  | .health => true
  | .version => true
  | _ => false

/-- What the key middleware does with one request. -/
inductive GateResult where
  | next
  | unauthorized
deriving Repr, DecidableEq

/-- `requireApiKey`: with no configured key (`API_KEY = ""`) every request
passes; otherwise the `x-api-key` header must equal the key exactly, and a
missing or different header gets the 401 `ok:false` response. -/
def requireApiKey (apiKey : String) (xApiKey : Option String) : GateResult :=
  if apiKey = "" then .next
  else if xApiKey = some apiKey then .next
  else .unauthorized

/-- Dispatch of the gate over the whole app: the two public routes bypass
the middleware, the rest run it. -/
def apiGate (apiKey : String) (ep : Endpoint) (xApiKey : Option String) :
    GateResult :=
  if isExemptRoute ep then .next else requireApiKey apiKey xApiKey

/-- C9: with a configured secret, a non-exempt request is processed iff its
`x-api-key` header equals the secret exactly, anything else being answered
with the 401 unauthorized response; with no secret configured every request
is processed; the liveness and version routes always pass. -/
theorem apiGate_spec (apiKey : String) (ep : Endpoint) (xApiKey : Option String) :
    (apiKey ≠ "" → isExemptRoute ep = false →
      (apiGate apiKey ep xApiKey = .next ↔ xApiKey = some apiKey)) ∧
    (apiKey = "" → apiGate apiKey ep xApiKey = .next) ∧
    (isExemptRoute ep = true → apiGate apiKey ep xApiKey = .next) ∧
    (apiGate apiKey ep xApiKey ≠ .next →
      apiGate apiKey ep xApiKey = .unauthorized) := by
  refine ⟨?_, ?_, ?_, ?_⟩
  · intro hk hex
    unfold apiGate requireApiKey
    rw [hex]
    simp only [Bool.false_eq_true, if_false, if_neg hk]
    by_cases hx : xApiKey = some apiKey
    · simp [hx]
    · simp [hx]
  · intro hk
    unfold apiGate requireApiKey
    rw [if_pos hk]
    split <;> rfl
  · intro hex
    unfold apiGate
    rw [hex]
    simp
  · intro hne
    cases hg : apiGate apiKey ep xApiKey with
    | next => exact absurd hg hne
    | unauthorized => rfl

theorem apiGate_spec_witness :
    ((("secret" : String) ≠ "" → isExemptRoute .sessionsList = false →
      (apiGate "secret" .sessionsList (some "secret") = .next ↔
        (some "secret" : Option String) = some "secret")) ∧
    (("secret" : String) = "" → apiGate "secret" .sessionsList (some "secret") = .next) ∧
    (isExemptRoute Endpoint.sessionsList = true →
      apiGate "secret" .sessionsList (some "secret") = .next) ∧
    (apiGate "secret" .sessionsList (some "secret") ≠ .next →
      apiGate "secret" .sessionsList (some "secret") = .unauthorized)) :=
  apiGate_spec "secret" .sessionsList (some "secret")

/-- `parseInt(String(v ?? d), 10) || d`: `none` stands for a missing or
non-numeric query value (`parseInt` gives `NaN`, which `||` replaces by the
fallback), and a parsed `0` is falsy, so it also falls back. -/
def intParamOr (v : Option Int) (d : Int) : Int :=
  match v with
  | none => d
  | some n => if n = 0 then d else n

/-- The query string of `GET /api/sessions`.  `from`/`to` are the epoch
milliseconds of the parsed dates. -/
structure ListQuery where
  page : Option Int
  limit : Option Int
  player : Option String
  mode : Option String
  fromMs : Option Int
  toMs : Option Int
deriving Repr, DecidableEq

/-- `Math.max(1, parseInt(...) || 1)`. -/
def pageOf (q : ListQuery) : Int := max 1 (intParamOr q.page 1)

/-- `Math.min(200, Math.max(1, parseInt(...) || 25))`. -/
def limitOf (q : ListQuery) : Int := min 200 (max 1 (intParamOr q.limit 25))

/-- The `WHERE` clause built from the optional filters. -/
def rowMatches (q : ListQuery) (r : SessionRow) : Bool :=
  (match q.player with | none => true | some pl => r.player == pl) &&
  (match q.mode with | none => true | some m => r.mode == m) &&
  (match q.fromMs with | none => true | some f => decide (f ≤ r.startedAt)) &&
  (match q.toMs with | none => true | some t => decide (r.startedAt ≤ t))

/-- `ORDER BY started_at DESC`. -/
def startedDescRel (a b : SessionRow) : Prop := b.startedAt ≤ a.startedAt

instance : DecidableRel startedDescRel := fun a b =>
  inferInstanceAs (Decidable (b.startedAt ≤ a.startedAt))

instance : IsTotal SessionRow startedDescRel :=
  ⟨fun a b => le_total b.startedAt a.startedAt⟩

instance : IsTrans SessionRow startedDescRel :=
  ⟨fun _ _ _ hab hbc => le_trans hbc hab⟩

/-- The per-row subquery `(SELECT COUNT(*) FROM splits sp WHERE
sp.session_id = s.id)`. -/
def splitCount (db : DB) (id : String) : Nat :=
  (db.splits.filter (fun sp => sp.sessionId == id)).length

/-- The response body of `GET /api/sessions`. -/
structure ListResponse where
  data : List (SessionRow × Nat)
  page : Int
  limit : Int
  total : Nat
deriving Repr, DecidableEq

/-- The `GET /api/sessions` handler: filter, order by start time
descending, apply `LIMIT limit OFFSET (page-1)*limit`, annotate each row
with its split count, and report the full filtered count. -/
def getSessions (db : DB) (q : ListQuery) : ListResponse :=
  let filtered := db.sessions.filter (rowMatches q)
  let sorted := List.insertionSort startedDescRel filtered
  let page := pageOf q
  let limit := limitOf q
  let offset := ((page - 1) * limit).toNat
  { data := ((sorted.drop offset).take limit.toNat).map
      (fun r => (r, splitCount db r.id)),
    page := page, limit := limit, total := filtered.length }

/-- C7: the listing returns the filtered sessions ordered by start time
descending, skipping `(page-1)*limit` rows and returning at most `limit`
rows; `page` and `limit` come from the clamped fallbacks (missing or
non-numeric values give the defaults 1 and 25, `limit` never exceeds 200),
`total` is the full filtered count, and everything returned is a stored
session matching the filters, carrying its split count. -/
theorem getSessions_spec (db : DB) (q : ListQuery) :
    (getSessions db q).total = (db.sessions.filter (rowMatches q)).length ∧
    (getSessions db q).data =
      (((List.insertionSort startedDescRel (db.sessions.filter (rowMatches q))).drop
          (((getSessions db q).page - 1) * (getSessions db q).limit).toNat).take
        (getSessions db q).limit.toNat).map (fun r => (r, splitCount db r.id)) ∧
    (getSessions db q).page = max 1 (intParamOr q.page 1) ∧
    (getSessions db q).limit = min 200 (max 1 (intParamOr q.limit 25)) ∧
    (q.page = none → (getSessions db q).page = 1) ∧
    (q.limit = none → (getSessions db q).limit = 25) ∧
    (getSessions db q).data.length ≤ 200 ∧
    (getSessions db q).data.Pairwise (fun a b => b.1.startedAt ≤ a.1.startedAt) ∧
    (∀ e ∈ (getSessions db q).data, e.1 ∈ db.sessions ∧
      rowMatches q e.1 = true ∧ e.2 = splitCount db e.1.id) := by
  have hsub : List.Sublist
      (((List.insertionSort startedDescRel
          (db.sessions.filter (rowMatches q))).drop
            (((pageOf q) - 1) * (limitOf q)).toNat).take (limitOf q).toNat)
      (List.insertionSort startedDescRel (db.sessions.filter (rowMatches q))) :=
    (List.take_sublist _ _).trans (List.drop_sublist _ _)
  have hdata : (getSessions db q).data =
      (((List.insertionSort startedDescRel
          (db.sessions.filter (rowMatches q))).drop
            (((pageOf q) - 1) * (limitOf q)).toNat).take (limitOf q).toNat).map
        (fun r => (r, splitCount db r.id)) := rfl
  refine ⟨rfl, rfl, rfl, rfl, fun h => by simp [getSessions, pageOf, intParamOr, h],
    fun h => by simp [getSessions, limitOf, intParamOr, h], ?_, ?_, ?_⟩
  · rw [hdata, List.length_map]
    refine le_trans (le_of_eq (List.length_take _ _)) ?_
    refine le_trans (min_le_left _ _) ?_
    have h200 : limitOf q ≤ 200 := min_le_left _ _
    omega
  · rw [hdata, List.pairwise_map]
    exact List.Pairwise.sublist hsub
      (List.sorted_insertionSort startedDescRel _)
  · intro e he
    rw [hdata] at he
    rw [List.mem_map] at he
    obtain ⟨r, hr, hre⟩ := he
    have hrs : r ∈ List.insertionSort startedDescRel
        (db.sessions.filter (rowMatches q)) := hsub.subset hr
    have hrf : r ∈ db.sessions.filter (rowMatches q) :=
      (List.perm_insertionSort startedDescRel _).subset hrs
    rw [List.mem_filter] at hrf
    exact ⟨by rw [← hre]; exact hrf.1, by rw [← hre]; exact hrf.2,
      by rw [← hre]⟩

/-- Thirty stored sessions with start times 0 … 29. -/
def demoSessionAt (k : Int) : SessionRow := ⟨"s", "p", "carreras", k, 0, 0, 0, 0⟩

def demo30 : DB := ⟨(List.range 30).map (fun k => demoSessionAt k), []⟩

/-- `?page=2&limit=10` with no filters. -/
def demoQuery : ListQuery := ⟨some 2, some 10, none, none, none, none⟩

theorem getSessions_spec_witness :
    (getSessions demo30 demoQuery).total
        = (demo30.sessions.filter (rowMatches demoQuery)).length ∧
    (getSessions demo30 demoQuery).total = 30 ∧
    (getSessions demo30 demoQuery).page = 2 ∧
    (getSessions demo30 demoQuery).limit = 10 ∧
    (getSessions demo30 demoQuery).data.map (fun e => e.1.startedAt)
        = [19, 18, 17, 16, 15, 14, 13, 12, 11, 10] :=
  ⟨(getSessions_spec demo30 demoQuery).1, by decide, by decide, by decide,
    by decide⟩

/-- SQL `MAX` over a column: 0 on the empty list (never used there), else
the fold of `max` from the first element. -/
def maxScore : List Rat → Rat
  | [] => 0
  | x :: xs => xs.foldl max x

theorem foldl_max_le_init (xs : List Rat) (x : Rat) : x ≤ xs.foldl max x := by
  induction xs generalizing x with
  | nil => exact le_refl x
  | cons y ys ih => exact le_trans (le_max_left x y) (ih (max x y))

theorem foldl_max_le_of_mem (xs : List Rat) (x y : Rat) (h : y ∈ xs) :
    y ≤ xs.foldl max x := by
  induction xs generalizing x with
  | nil => cases h
  | cons z zs ih =>
      rcases List.mem_cons.1 h with h1 | h2
      · subst h1
        exact le_trans (le_max_right x y) (foldl_max_le_init zs (max x y))
      · exact ih (max x z) h2

theorem foldl_max_mem (xs : List Rat) (x : Rat) : xs.foldl max x ∈ x :: xs := by
  induction xs generalizing x with
  | nil => exact List.mem_cons_self _ _
  | cons y ys ih =>
      rcases List.mem_cons.1 (ih (max x y)) with h1 | h2
      · rcases max_choice x y with hx | hy
        · rw [List.foldl_cons, h1, hx]
          exact List.mem_cons_self _ _
        · rw [List.foldl_cons, h1, hy]
          exact List.mem_cons_of_mem _ (List.mem_cons_self _ _)
      · exact List.mem_cons_of_mem _ (List.mem_cons_of_mem _ h2)

theorem maxScore_mem (l : List Rat) (h : l ≠ []) : maxScore l ∈ l := by
  cases l with
  | nil => exact absurd rfl h
  | cons x xs => exact foldl_max_mem xs x

theorem le_maxScore (l : List Rat) (y : Rat) (h : y ∈ l) : y ≤ maxScore l := by
  cases l with
  | nil => cases h
  | cons x xs =>
      rcases List.mem_cons.1 h with h1 | h2
      · subst h1
        exact foldl_max_le_init xs y
      · exact foldl_max_le_of_mem xs x y h2

/-- The `GROUP BY` key of a session row. -/
def sessionKey (r : SessionRow) : String × String := (r.player, r.mode)

/-- One step of collecting the distinct keys in first-appearance order. -/
def addKey (acc : List (String × String)) (r : SessionRow) :
    List (String × String) :=
  if sessionKey r ∈ acc then acc else acc ++ [sessionKey r]

/-- The distinct `(player, mode)` keys of the rows (the `GROUP BY` of the
leaderboard query). -/
def groupKeys (rows : List SessionRow) : List (String × String) :=
  rows.foldl addKey []

theorem foldl_addKey_sub (rows : List SessionRow)
    (acc : List (String × String)) : acc ⊆ rows.foldl addKey acc := by
  induction rows generalizing acc with
  | nil => exact fun x h => h
  | cons r rest ih =>
      refine fun x h => ih (addKey acc r) ?_
      unfold addKey
      split
      · exact h
      · exact List.mem_append_left _ h

theorem mem_foldl_addKey (rows : List SessionRow)
    (acc : List (String × String)) (r : SessionRow) (h : r ∈ rows) :
    sessionKey r ∈ rows.foldl addKey acc := by
  induction rows generalizing acc with
  | nil => cases h
  | cons r0 rest ih =>
      rcases List.mem_cons.1 h with h1 | h2
      · subst h1
        refine foldl_addKey_sub rest (addKey acc r) ?_
        unfold addKey
        split
        · assumption
        · exact List.mem_append_right _ (List.mem_singleton.2 rfl)
      · exact ih (addKey acc r0) h2

theorem foldl_addKey_sound (rows : List SessionRow)
    (acc : List (String × String)) (k : String × String)
    (h : k ∈ rows.foldl addKey acc) :
    k ∈ acc ∨ ∃ r ∈ rows, sessionKey r = k := by
  induction rows generalizing acc with
  | nil => exact Or.inl h
  | cons r0 rest ih =>
      rcases ih (addKey acc r0) h with h1 | h2
      · unfold addKey at h1
        split at h1
        · exact Or.inl h1
        · rcases List.mem_append.1 h1 with ha | hb
          · exact Or.inl ha
          · exact Or.inr ⟨r0, List.mem_cons_self _ _,
              (List.mem_singleton.1 hb).symm⟩
      · obtain ⟨r, hr, hk⟩ := h2
        exact Or.inr ⟨r, List.mem_cons_of_mem _ hr, hk⟩

theorem foldl_addKey_nodup (rows : List SessionRow)
    (acc : List (String × String)) (h : acc.Nodup) :
    (rows.foldl addKey acc).Nodup := by
  induction rows generalizing acc with
  | nil => exact h
  | cons r0 rest ih =>
      refine ih (addKey acc r0) ?_
      unfold addKey
      split
      · exact h
      · rename_i hni
        simp [List.nodup_append, h, hni]

theorem groupKeys_sound (rows : List SessionRow) (k : String × String)
    (h : k ∈ groupKeys rows) : ∃ r ∈ rows, sessionKey r = k := by
  rcases foldl_addKey_sound rows [] k h with h0 | h1
  · cases h0
  · exact h1

theorem groupKeys_complete (rows : List SessionRow) (r : SessionRow)
    (h : r ∈ rows) : sessionKey r ∈ groupKeys rows :=
  mem_foldl_addKey rows [] r h

theorem groupKeys_nodup (rows : List SessionRow) : (groupKeys rows).Nodup :=
  foldl_addKey_nodup rows [] List.nodup_nil

/-- One leaderboard row as produced by the query. -/
structure LBEntry where
  player : String
  mode : String
  best_score : Rat
deriving Repr, DecidableEq

/-- `ORDER BY best_score DESC`. -/
def bestDescRel (a b : LBEntry) : Prop := b.best_score ≤ a.best_score

instance : DecidableRel bestDescRel := fun a b =>
  inferInstanceAs (Decidable (b.best_score ≤ a.best_score))

instance : IsTotal LBEntry bestDescRel :=
  ⟨fun a b => le_total b.best_score a.best_score⟩

instance : IsTrans LBEntry bestDescRel :=
  ⟨fun _ _ _ hab hbc => le_trans hbc hab⟩

/-- The base row set of the leaderboard query: all sessions, or the ones of
the requested mode when `?mode=` is present. -/
def modeRows (db : DB) (mode? : Option String) : List SessionRow :=
  match mode? with
  | some m => db.sessions.filter (fun r => r.mode == m)
  | none => db.sessions

/-- The rows of one `(player, mode)` group. -/
def groupRows (rows : List SessionRow) (k : String × String) :
    List SessionRow :=
  rows.filter (fun r => r.player == k.1 && r.mode == k.2)

/-- `SELECT player, mode, MAX(total_score) AS best_score` for one group. -/
def lbEntryOf (rows : List SessionRow) (k : String × String) : LBEntry :=
  ⟨k.1, k.2, maxScore ((groupRows rows k).map (fun r => r.totalScore))⟩

/-- The `GET /api/leaderboard` handler. -/
def getLeaderboard (db : DB) (mode? : Option String) (limit? : Option Int) :
    List LBEntry :=
  let limit := min 100 (max 1 (intParamOr limit? 10))
  let rows := modeRows db mode?
  let entries := (groupKeys rows).map (lbEntryOf rows)
  (List.insertionSort bestDescRel entries).take limit.toNat

/-- C8: the leaderboard is ordered by best score descending, holds at most
the clamped limit (never more than 100) of entries, at most one per
distinct `(player, mode)` combination, each carrying that combination's
maximum total score over the filtered rows; with a mode filter every entry
is of that mode; and before the `LIMIT` truncation every combination
present in the filtered rows is represented. -/
theorem getLeaderboard_spec (db : DB) (mode? : Option String)
    (limit? : Option Int) :
    (getLeaderboard db mode? limit?).Pairwise
      (fun a b => b.best_score ≤ a.best_score) ∧
    (getLeaderboard db mode? limit?).Pairwise
      (fun a b => ¬ (a.player = b.player ∧ a.mode = b.mode)) ∧
    (getLeaderboard db mode? limit?).length
      ≤ (min 100 (max 1 (intParamOr limit? 10))).toNat ∧
    (getLeaderboard db mode? limit?).length ≤ 100 ∧
    (∀ e ∈ getLeaderboard db mode? limit?,
      (∃ r ∈ modeRows db mode?, r.player = e.player ∧ r.mode = e.mode ∧
          r.totalScore = e.best_score) ∧
      (∀ r ∈ modeRows db mode?, r.player = e.player → r.mode = e.mode →
          r.totalScore ≤ e.best_score)) ∧
    (∀ m, mode? = some m → ∀ e ∈ getLeaderboard db mode? limit?, e.mode = m) ∧
    (∀ r ∈ modeRows db mode?,
      ∃ e ∈ List.insertionSort bestDescRel
          ((groupKeys (modeRows db mode?)).map (lbEntryOf (modeRows db mode?))),
        e.player = r.player ∧ e.mode = r.mode) := by
  have hL : getLeaderboard db mode? limit? =
      (List.insertionSort bestDescRel
        ((groupKeys (modeRows db mode?)).map
          (lbEntryOf (modeRows db mode?)))).take
        (min 100 (max 1 (intParamOr limit? 10))).toNat := rfl
  have hperm := List.perm_insertionSort bestDescRel
    ((groupKeys (modeRows db mode?)).map (lbEntryOf (modeRows db mode?)))
  have hsubL : List.Sublist (getLeaderboard db mode? limit?)
      (List.insertionSort bestDescRel
        ((groupKeys (modeRows db mode?)).map (lbEntryOf (modeRows db mode?)))) := by
    rw [hL]
    exact List.take_sublist _ _
  have hmemE : ∀ e ∈ getLeaderboard db mode? limit?,
      ∃ k ∈ groupKeys (modeRows db mode?),
        lbEntryOf (modeRows db mode?) k = e := by
    intro e he
    have h1 : e ∈ (groupKeys (modeRows db mode?)).map
        (lbEntryOf (modeRows db mode?)) :=
      hperm.subset (hsubL.subset he)
    rw [List.mem_map] at h1
    obtain ⟨k, hk, hke⟩ := h1
    exact ⟨k, hk, hke⟩
  refine ⟨?_, ?_, ?_, ?_, ?_, ?_, ?_⟩
  · exact List.Pairwise.sublist hsubL (List.sorted_insertionSort bestDescRel _)
  · have hkeys := groupKeys_nodup (modeRows db mode?)
    have hentries : ((groupKeys (modeRows db mode?)).map
        (lbEntryOf (modeRows db mode?))).Pairwise
        (fun a b => ¬ (a.player = b.player ∧ a.mode = b.mode)) := by
      rw [List.pairwise_map]
      refine List.Pairwise.imp ?_ hkeys
      intro k1 k2 hne hc
      exact hne (Prod.ext hc.1 hc.2)
    exact List.Pairwise.sublist hsubL
      ((hperm.pairwise_iff (fun hab hc => hab ⟨hc.1.symm, hc.2.symm⟩)).2 hentries)
  · rw [hL]
    exact le_trans (le_of_eq (List.length_take _ _)) (min_le_left _ _)
  · rw [hL]
    refine le_trans (le_of_eq (List.length_take _ _))
      (le_trans (min_le_left _ _) ?_)
    have h100 : (min 100 (max 1 (intParamOr limit? 10)) : Int) ≤ 100 :=
      min_le_left _ _
    omega
  · intro e he
    obtain ⟨k, hk, hke⟩ := hmemE e he
    obtain ⟨r0, hr0, hkey0⟩ := groupKeys_sound _ k hk
    have hr0g : r0 ∈ groupRows (modeRows db mode?) k := by
      rw [groupRows, List.mem_filter]
      refine ⟨hr0, ?_⟩
      rw [← hkey0]
      simp [sessionKey]
    have hne : ((groupRows (modeRows db mode?) k).map
        (fun r => r.totalScore)) ≠ [] := by
      intro hemp
      rw [List.map_eq_nil_iff] at hemp
      rw [hemp] at hr0g
      cases hr0g
    constructor
    · have hmx := maxScore_mem _ hne
      rw [List.mem_map] at hmx
      obtain ⟨r1, hr1, hscore⟩ := hmx
      have hr1' := hr1
      rw [groupRows, List.mem_filter] at hr1'
      have hcond := hr1'.2
      simp only [Bool.and_eq_true, beq_iff_eq] at hcond
      refine ⟨r1, hr1'.1, ?_, ?_, ?_⟩
      · rw [← hke]
        exact hcond.1
      · rw [← hke]
        exact hcond.2
      · rw [← hke]
        exact hscore
    · intro r hr hpl hmo
      have hrg : r ∈ groupRows (modeRows db mode?) k := by
        rw [groupRows, List.mem_filter]
        refine ⟨hr, ?_⟩
        simp only [Bool.and_eq_true, beq_iff_eq]
        refine ⟨?_, ?_⟩
        · rw [hpl, ← hke]
          rfl
        · rw [hmo, ← hke]
          rfl
      have hmem : r.totalScore ∈ (groupRows (modeRows db mode?) k).map
          (fun r => r.totalScore) :=
        List.mem_map.2 ⟨r, hrg, rfl⟩
      have hle := le_maxScore _ _ hmem
      rw [← hke]
      exact hle
  · intro m hm e he
    obtain ⟨k, hk, hke⟩ := hmemE e he
    obtain ⟨r0, hr0, hkey0⟩ := groupKeys_sound _ k hk
    have hmode : r0.mode = m := by
      rw [hm] at hr0
      simp only [modeRows, List.mem_filter, beq_iff_eq] at hr0
      exact hr0.2
    rw [← hke, ← hkey0]
    exact hmode
  · intro r hr
    have hk := groupKeys_complete (modeRows db mode?) r hr
    refine ⟨lbEntryOf (modeRows db mode?) (sessionKey r), ?_, rfl, rfl⟩
    exact hperm.mem_iff.2 (List.mem_map.2 ⟨sessionKey r, hk, rfl⟩)

/-- Two sessions of player A and one of player B, all mode `racing`, with
total scores 10, 20 and 15. -/
def demoLBDB : DB :=
  ⟨[⟨"s1", "A", "racing", 0, 0, 10, 0, 0⟩,
    ⟨"s2", "A", "racing", 1, 0, 20, 0, 0⟩,
    ⟨"s3", "B", "racing", 2, 0, 15, 0, 0⟩], []⟩

theorem getLeaderboard_spec_witness :
    (getLeaderboard demoLBDB (some "racing") none).Pairwise
      (fun a b => b.best_score ≤ a.best_score) ∧
    getLeaderboard demoLBDB (some "racing") none =
      [⟨"A", "racing", 20⟩, ⟨"B", "racing", 15⟩] :=
  ⟨(getLeaderboard_spec demoLBDB (some "racing") none).1, by decide⟩

end TimeSplit
